import Mathlib

/-!
# go-watcher: verification of the debounced watch / process-supervision engine

Shallow embedding of the `github.com/imkk000/go-watcher` sources.  The
repository contains three revisions of the same program:

* v0.0.1 (`main.go`)           — ignore/extension filters only;
* v0.0.4 (`part_002`)          — exclude/include/extension filters, walkDir
                                  admission `include ∨ ¬exclude`;
* v0.1.2 (`part_001`, `part_003`, the process file appended to `go.mod`,
  `part_000`, `part_004`)      — exclusion/inclusion/extension filters built
                                  by `joinPipe`/`parseRegexps`, walkDir
                                  admission `include ∧ ¬exclude`, env files.

Strings are modelled as `List Char`; Go `strings.ToLower` is modelled
ASCII-only (every path and pattern the program manipulates here is ASCII).
-/

namespace GoWatcher

/-- ASCII lowering of one character, the effect of Go `strings.ToLower`
on the ASCII paths this program handles. -/
def lowerChar (c : Char) : Char :=
  if 'A' ≤ c ∧ c ≤ 'Z' then Char.ofNat (c.toNat + 32) else c

/-- Go `strings.ToLower` on an ASCII string. -/
def goToLower (s : List Char) : List Char := s.map lowerChar

/-- Go `strings.Join(v, "|")`. -/
def goJoin : List (List Char) → List Char
  | [] => []
  | [s] => s
  | s :: t :: rest => s ++ '|' :: goJoin (t :: rest)

/-- Go `strings.ReplaceAll(s, ",", "|")` (both operands are single
characters, so this is a character map). -/
def replaceCommaPipe (s : List Char) : List Char :=
  s.map fun c => if c = ',' then '|' else c

/-- `joinPipe` from the v0.1.2 helper file (`part_000`):
`strings.Join(v, "|")` followed by `strings.ReplaceAll(s, ",", "|")`. -/
def joinPipe (v : List (List Char)) : List Char :=
  replaceCommaPipe (goJoin v)

/-- Split a compiled pattern on `'|'` into its regexp alternatives.
Splitting the empty pattern yields the single empty alternative, exactly as
Go `regexp` treats `""` as one empty alternative. -/
def splitPipe (s : List Char) : List (List Char) :=
  let rec go (cur : List Char) : List Char → List (List Char)
    | [] => [cur.reverse]
    | c :: cs => if c = '|' then cur.reverse :: go [] cs else go (c :: cur) cs
  go [] s

/-- One regexp literal character against one subject character: in the
patterns this program compiles, `.` is the regexp wildcard and every other
character matches itself. -/
def charMatches (p c : Char) : Bool := p == '.' || p == c

/-- A regexp alternative (a literal possibly containing `.` wildcards)
matches a prefix of the subject. -/
def altMatchesPrefix : List Char → List Char → Bool
  | [], _ => true
  | _ :: _, [] => false
  | p :: ps, c :: cs => charMatches p c && altMatchesPrefix ps cs

/-- A regexp alternative matches somewhere inside the subject (Go
`regexp.MatchString` is unanchored: a match may start at any position,
including the position after the last character). -/
def altMatchesIn (alt : List Char) : List Char → Bool
  | [] => altMatchesPrefix alt []
  | c :: cs => altMatchesPrefix alt (c :: cs) || altMatchesIn alt cs

/-- Go `regexp.MatchString` for the pattern class this program compiles:
an unanchored alternation of literals with `.` wildcards.  This is the
matcher the v0.1.2 `parseRegexps` produces (it compiles `joinPipe(rules)`
with no anchors and no grouping). -/
def reMatch (pattern s : List Char) : Bool :=
  (splitPipe pattern).any fun alt => altMatchesIn alt s

/-- Whole-string match, the matcher the v0.0.1 / v0.0.4 extension pattern
`^(t1|…|tn)$` produces: the `^(…)$` anchors force one alternative to cover
the whole subject (the grouping parentheses are semantically transparent). -/
def reMatchFull (alts : List (List Char)) (s : List Char) : Bool :=
  alts.any fun alt => alt.length = s.length && altMatchesPrefix alt s

/-- Go `filepath.Ext`: the suffix of the final path element starting at its
last dot, empty when the final element has no dot. -/
def pathExt (s : List Char) : List Char :=
  let rec go (acc : List Char) : List Char → List Char
    | [] => acc
    | c :: cs =>
      if c = '/' then go [] cs
      else if c = '.' then go (c :: cs) cs
      else go acc cs
  go [] s

/-!
## Path filters

v0.1.2 (`part_001`): `parseRegexps` compiles, for each of the flag slices
`exclusions`, `inclusions`, `extensions`, the raw pattern
`joinPipe(slice)` — no anchors, no grouping.  `walkDir` skips a directory
when `!inclusionRegex.MatchString(lower) || exclusionRegex.MatchString(lower)`,
i.e. admits it when `inclusion ∧ ¬exclusion`.

v0.0.4 (`part_002`): the `Before` hook compiles `(join(excludeDirs))` as the
exclude regex, `(join(excludeDirs))` again as the include regex (it reads
`excludeDirs` a second time), and `^(join(extensions))$` as the extension
regex.  `walkDir` skips a directory when
`!includeRegex.MatchString(lower) && excludeRegex.MatchString(lower)`,
i.e. admits it when `include ∨ ¬exclude`.
-/

/-- v0.1.2 `parseRegexps`: the raw pattern for one flag slice is
`joinPipe(slice)`. -/
def parseRegexpsRaw (rules : List (List Char)) : List Char := joinPipe rules

/-- v0.1.2 `walkDir` admission for a directory entry `path`: the entry is
registered with the watcher iff the lowered path matches the inclusion
pattern and does not match the exclusion pattern
(`part_001`, lines 285–297). -/
def walkDirAdmit_v012 (inclusion exclusion : List Char) (path : List Char) : Bool :=
  let low := goToLower path
  reMatch inclusion low && !reMatch exclusion low

/-- v0.0.4 `walkDir` admission for a directory entry `path`: the entry is
registered iff the lowered path matches the include pattern or does not
match the exclude pattern (`part_002`, lines 325–337). -/
def walkDirAdmit_v004 (incl excl : List Char) (path : List Char) : Bool :=
  let low := goToLower path
  reMatch incl low || !reMatch excl low

/-- v0.0.4 `fileCmd.Before`: the include regex is compiled from the
`exclude-dirs` slice (the code joins `excludeDirs` a second time), wrapped
in transparent grouping parentheses (`part_002`, lines 116–124). -/
def compileIncludeRaw_v004 (excludeDirs : List (List Char)) : List Char :=
  replaceCommaPipe (goJoin excludeDirs)

/-- v0.1.2 `runFileWatcher` file-event filter (`part_001`, lines 259–263):
a non-directory event path passes the path filter iff its lowered
`filepath.Ext` matches the extension pattern and its lowered full path does
not match the exclusion pattern. -/
def filePathActionable (extension exclusion : List Char) (name : List Char) : Bool :=
  let ext := goToLower (pathExt name)
  !(!reMatch extension ext || reMatch exclusion (goToLower name))

/-- fsnotify event operations. -/
inductive FsOp where
  | create | write | rename | remove | chmod
  deriving DecidableEq, Repr

/-- v0.1.2 `runFileWatcher` event-kind switch (`part_001`, lines 264–268):
only `Create`, `Write`, `Rename` fall through; everything else `continue`s. -/
def isTriggerOp : FsOp → Bool
  | .create => true
  | .write => true
  | .rename => true
  | _ => false

/-- Result of `os.Stat` on the event path, as the loop consumes it:
`none` models a stat error, `some isDir` a successful stat. -/
def StatResult := Option Bool

/-- What the v0.1.2 event-loop body does with one `watcher.Events` value
(`part_001`, lines 242–274). -/
inductive EventOutcome where
  /-- `continue` without side effect (stat error, filtered path,
  non-trigger op). -/
  | dropped
  /-- directory branch: incremental `walkDir` on the event path. -/
  | walkSubtree
  /-- `debouncer.Stop(); debouncer = time.AfterFunc(d, …)`. -/
  | armDebounce
  deriving DecidableEq, Repr

/-- The v0.1.2 event-loop body for one event, translated clause by clause
from `part_001`, lines 242–274. -/
def handleEvent_v012 (extension exclusion : List Char)
    (name : List Char) (op : FsOp) (stat : Option Bool) : EventOutcome :=
  match stat with
  | none => .dropped
  | some true => .walkSubtree
  | some false =>
    let ext := goToLower (pathExt name)
    if !reMatch extension ext || reMatch exclusion (goToLower name) then .dropped
    else if isTriggerOp op then .armDebounce
    else .dropped

/-!
## Process supervision (v0.1.2: `killProcess` / `startProcess`, the process
file appended after `go.mod`, lines 51–85)

`exec.Cmd.Start` sets `cmd.Process` only on success; on failure the field
stays `nil`, and a later `cmd.Process.Pid` is a nil-pointer dereference
(a Go runtime panic).  The observable process-lifecycle actions are the
events below, in program order.
-/

/-- Observable process-lifecycle events, in the order the supervisor emits
them. -/
inductive PEvent where
  /-- `syscall.Kill(-pid, syscall.SIGKILL)`: a kill signal to the whole
  process group `pid` (the group id equals the leader pid, `Setpgid: true`). -/
  | killSig (pid : Nat)
  /-- `cmd.Wait()` returned: the leader is reaped. -/
  | waitRet (pid : Nat)
  /-- `cmd.Start()` succeeded: a new group leader is running. -/
  | spawn (pid : Nat)
  deriving DecidableEq, Repr

/-- Go `*exec.Cmd` as the supervisor uses it: `process` is `nil` until
`Start` succeeds. -/
structure GoCmd where
  process : Option Nat
  deriving DecidableEq, Repr

/-- A Go runtime panic reachable from the embedded code. -/
inductive GoPanic where
  | nilDeref
  deriving DecidableEq, Repr

/-- Dereference `cmd.Process`: panics when the pointer is `nil`. -/
def derefPid : Option Nat → Except GoPanic Nat
  | none => .error .nilDeref
  | some p => .ok p

/-- `killProcess` (process file, lines 51–62): when a current command
exists, send SIGKILL to `-cmd.Process.Pid` and then `cmd.Wait()`. -/
def killProcess (cmd : Option GoCmd) : Except GoPanic (List PEvent) :=
  match cmd with
  | none => .ok []
  | some c => do
    let pid ← derefPid c.process
    .ok [.killSig pid, .waitRet pid]

/-- `startProcess` (process file, lines 64–85): `killProcess()` first, then
build the new command and `cmd.Start()` — `spawnPid = none` models a start
error, which the code only logs — then `log.Info().Msgf("started (%d)",
cmd.Process.Pid)`, which dereferences the possibly-`nil` `cmd.Process`. -/
def startProcess (cmd : Option GoCmd) (spawnPid : Option Nat) :
    Except GoPanic (GoCmd × List PEvent) := do
  let evs ← killProcess cmd
  let newCmd : GoCmd := ⟨spawnPid⟩
  let pid ← derefPid newCmd.process
  .ok (newCmd, evs ++ [.spawn pid])

/-- Iterated restarts: each trigger calls `startProcess`, which replaces the
global `cmd`.  `pids` are the pids of the successively spawned children. -/
def runSupervisor (cmd : Option GoCmd) : List Nat → Except GoPanic (List PEvent)
  | [] => .ok []
  | q :: qs => do
    let r ← startProcess cmd (some q)
    let rest ← runSupervisor (some r.1) qs
    .ok (r.2 ++ rest)

/-- The event trace of a run of successful restarts, written out directly:
from no current child, each restart of the v0.1.2 `startProcess` emits
`killSig old, waitRet old` (when an old child exists) followed by
`spawn new`. -/
def restartTrace : Option Nat → List Nat → List PEvent
  | _, [] => []
  | none, q :: qs => .spawn q :: restartTrace (some q) qs
  | some p, q :: qs => .killSig p :: .waitRet p :: .spawn q :: restartTrace (some q) qs

/-- Effect of one event on the set of live (spawned, not yet reaped)
children. -/
def liveStep (s : List Nat) : PEvent → List Nat
  | .spawn p => s ++ [p]
  | .waitRet p => s.erase p
  | .killSig _ => s

/-- Children live after a trace, starting from the live set `s`. -/
def liveFrom (s : List Nat) (tr : List PEvent) : List Nat := tr.foldl liveStep s

/-!
## Debouncer (v0.1.2 `runFileWatcher`, `part_001` lines 269–274)

```
if debouncer != nil { debouncer.Stop() }
debouncer = time.AfterFunc(d, func() { startProcess(ctx, name, args...) })
```

A `time.Timer` armed at time `t` with delay `d` runs its callback at `t+d`
unless `Stop` is called strictly before `t+d`; `Stop` on a timer whose
callback already ran is a no-op.  Time is modelled in discrete units.
-/

/-- Debouncer state: deadline of the pending timer (at most one exists,
the single `debouncer` variable) and the times at which the `AfterFunc`
callback — `startProcess`, i.e. one restart invocation — has run. -/
structure DebState where
  pending : Option Nat
  fires : List Nat
  deriving DecidableEq, Repr

/-- The loop body at a qualifying event arriving at time `t`: a pending
timer whose deadline has already passed fired before `Stop` could cancel
it; an unexpired one is cancelled; then a fresh timer is armed at `t + d`. -/
def debArm (d : Nat) (st : DebState) (t : Nat) : DebState :=
  let fires :=
    match st.pending with
    | some ta => if ta ≤ t then st.fires ++ [ta] else st.fires
    | none => st.fires
  ⟨some (t + d), fires⟩

/-- Run the debouncer over the qualifying-event times `ts` (ascending). -/
def debRun (d : Nat) (ts : List Nat) : DebState := ts.foldl (debArm d) ⟨none, []⟩

/-- All times at which the restart callback runs: fires during the event
stream, plus the still-pending timer, which fires at its deadline once no
further event arrives. -/
def debFires (d : Nat) (ts : List Nat) : List Nat :=
  let st := debRun d ts
  match st.pending with
  | some ta => st.fires ++ [ta]
  | none => st.fires

/-!
## Directory walk (v0.1.2 `walkDir`, `part_001` lines 285–297)

`filepath.WalkDir` visits entries in pre-order; when the callback returns a
non-nil error the whole walk stops and `WalkDir` returns that error.  The
callback here returns `watcher.Add(path)` for every admitted directory.
`addOk` models which `watcher.Add` calls succeed.
-/

/-- One entry visited by `filepath.WalkDir`, in visit order. -/
structure WalkEntry where
  path : List Char
  isDir : Bool
  deriving DecidableEq, Repr

/-- `walkDir` (v0.1.2): returns the directories successfully registered
with the watcher and the error `WalkDir` returned (`some p` when
`watcher.Add(p)` failed: the callback returns that error and the walk
aborts, so entries after `p` are never visited). -/
def walkDir (inclusion exclusion : List Char) (addOk : List Char → Bool) :
    List WalkEntry → List (List Char) × Option (List Char)
  | [] => ([], none)
  | e :: es =>
    if !e.isDir then walkDir inclusion exclusion addOk es
    else if !walkDirAdmit_v012 inclusion exclusion e.path then
      walkDir inclusion exclusion addOk es
    else if addOk e.path then
      let r := walkDir inclusion exclusion addOk es
      (e.path :: r.1, r.2)
    else ([], some e.path)

/-!
## The file-watch loop driver (v0.1.2 `runFileWatcher`, `part_001`
lines 210–283) and the tick loop (`runCommandWatcher`, lines 299–322)
-/

/-- One value the `select` in the file-watch loop can receive.  A
filesystem event carries the path, the operation, the `os.Stat` result
(`none` = stat error, `some isDir`), and — when the path is a directory —
the subtree `filepath.WalkDir` would visit under it. -/
inductive LoopIn where
  /-- `<-ctx.Done()`. -/
  | ctxDone
  /-- `watcher.Events` closed (`!ok`). -/
  | evClosed
  /-- `watcher.Errors` closed (`!ok`). -/
  | errClosed
  /-- a value on `watcher.Errors`: logged, loop continues. -/
  | errValue
  /-- the armed debounce timer fired: its callback runs
  `startProcess(ctx, name, args...)`; `spawnPid` is the new child's pid. -/
  | debounceFire (spawnPid : Nat)
  /-- a value on `watcher.Events`. -/
  | fsEvent (name : List Char) (op : FsOp) (stat : Option Bool) (sub : List WalkEntry)

/-- Observable state of the file-watch driver: the global `cmd`, the
process events emitted so far, and the watched directories. -/
structure LoopState where
  cmd : Option GoCmd
  events : List PEvent
  watched : List (List Char)
  deriving Repr

/-- Result of running the loop on a finite input list. -/
inductive LoopRes where
  /-- a Go runtime panic escaped the loop. -/
  | panicked (p : GoPanic)
  /-- state when the inputs ran out (`returned = false`: the loop is still
  blocked in `select`) or when the loop executed `return`. -/
  | out (st : LoopState) (returned : Bool)
  deriving Repr

/-- The v0.1.2 `runFileWatcher` select loop, one clause per `case` of
`part_001` lines 238–282.  On `ctx.Done()` and on either channel closing
the function returns at once; nothing in those paths touches `cmd`. -/
def loopRun (inclusion exclusion extension : List Char) (addOk : List Char → Bool) :
    LoopState → List LoopIn → LoopRes
  | st, [] => .out st false
  | st, .ctxDone :: _ => .out st true
  | st, .evClosed :: _ => .out st true
  | st, .errClosed :: _ => .out st true
  | st, .errValue :: is => loopRun inclusion exclusion extension addOk st is
  | st, .debounceFire q :: is =>
    match startProcess st.cmd (some q) with
    | .error p => .panicked p
    | .ok r => loopRun inclusion exclusion extension addOk
        ⟨some r.1, st.events ++ r.2, st.watched⟩ is
  | st, .fsEvent name op stat sub :: is =>
    match handleEvent_v012 extension exclusion name op stat with
    | .dropped => loopRun inclusion exclusion extension addOk st is
    | .walkSubtree =>
      let r := walkDir inclusion exclusion addOk sub
      loopRun inclusion exclusion extension addOk
        ⟨st.cmd, st.events, st.watched ++ r.1⟩ is
    | .armDebounce => loopRun inclusion exclusion extension addOk st is

/-- Overall outcome of `runFileWatcher`. -/
inductive RunOutcome where
  /-- `log.Fatal` after the initial walk failed: startup aborts. -/
  | fatal (path : List Char)
  /-- a Go runtime panic. -/
  | panicked (p : GoPanic)
  /-- inputs exhausted while still blocked in `select`. -/
  | looping (st : LoopState)
  /-- the loop executed `return`. -/
  | returned (st : LoopState)
  deriving Repr

/-- `runFileWatcher` (v0.1.2): initial recursive walk of the root tree
(failure is `log.Fatal`), then the first `startProcess` (the `// run first
time` line), then the select loop. -/
def runFileWatcher (inclusion exclusion extension : List Char)
    (addOk : List Char → Bool) (tree : List WalkEntry)
    (initSpawn : Option Nat) (inputs : List LoopIn) : RunOutcome :=
  let w := walkDir inclusion exclusion addOk tree
  match w.2 with
  | some f => .fatal f
  | none =>
    match startProcess none initSpawn with
    | .error p => .panicked p
    | .ok r =>
      match loopRun inclusion exclusion extension addOk ⟨some r.1, r.2, w.1⟩ inputs with
      | .panicked p => .panicked p
      | .out st returned => if returned then .returned st else .looping st

/-- Events of an outcome that still has observable loop state. -/
def RunOutcome.eventsOf : RunOutcome → Option (List PEvent)
  | .looping st => some st.events
  | .returned st => some st.events
  | _ => none

/-- One value the tick loop's `select` can receive. -/
inductive TickIn where
  /-- `<-ctx.Done()`. -/
  | ctxDone
  /-- `<-ticker.C`; `spawnPid` is the pid of the child the subsequent
  `startProcess` spawns. -/
  | tick (spawnPid : Nat)

/-- Observable state of the tick-loop driver. -/
structure TickState where
  cmd : Option GoCmd
  events : List PEvent
  deriving Repr

/-- The v0.1.2 `runCommandWatcher` select loop (`part_001` lines 309–321):
on `ctx.Done()` it returns at once; on a tick it first `cmd.Wait()`s the
current command (a reap, emitted as `waitRet` when the command has a
process; `Wait` on an unstarted command merely errors) and then calls
`startProcess`. -/
def tickRun : TickState → List TickIn → Except GoPanic (TickState × Bool)
  | st, [] => .ok (st, false)
  | st, .ctxDone :: _ => .ok (st, true)
  | st, .tick q :: is => do
    let waitEvs :=
      match st.cmd with
      | some c => match c.process with | some p => [PEvent.waitRet p] | none => []
      | none => []
    let r ← startProcess st.cmd (some q)
    tickRun ⟨some r.1, st.events ++ waitEvs ++ r.2⟩ is

/-- `runCommandWatcher` (v0.1.2, `part_001` lines 299–322): the first
`startProcess` (the `// run first time` line) and then the tick loop. -/
def runCommandWatcher (initSpawn : Option Nat) (inputs : List TickIn) :
    Except GoPanic (TickState × Bool) := do
  let r ← startProcess none initSpawn
  tickRun ⟨some r.1, r.2⟩ inputs

/-!
## Environment snapshot (v0.1.2 `readEnvs`, process file lines 96–110)

```
envs := make([]string, 0, len(env))
for k, v := range env { envs = append(envs, k+"="+v) }
return append(envs, os.Environ()...), nil
```

The env-file entries come first and `os.Environ()` is appended last.
`os/exec` documents that when `Cmd.Env` contains duplicate keys, only the
last value in the slice for each duplicate key is used.
-/

/-- `readEnvs`: the slice handed to `cmd.Env` — env-file pairs first, the
inherited environment appended after them. -/
def readEnvs (fileEnv procEnv : List (String × String)) : List (String × String) :=
  fileEnv ++ procEnv

/-- The value the spawned child observes for key `k`: the last entry for
`k` in the `Env` slice (Go `os/exec` duplicate-key rule). -/
def effectiveEnv (envs : List (String × String)) (k : String) : Option String :=
  ((envs.filter fun e => e.1 == k).getLast?).map Prod.snd

/-!
## Helper lemmas
-/

/-- The empty pattern — what `joinPipe` produces from an empty rule slice —
matches every subject, as Go `regexp` does. -/
theorem reMatch_nil (s : List Char) : reMatch [] s = true := by
  cases s <;> rfl

/-- Members of the watched-directory list returned by `walkDir` passed the
v0.1.2 admission test. -/
theorem walkDir_watched_admit (inclusion exclusion : List Char)
    (addOk : List Char → Bool) :
    ∀ entries p, p ∈ (walkDir inclusion exclusion addOk entries).1 →
      walkDirAdmit_v012 inclusion exclusion p = true := by
  intro entries
  induction entries with
  | nil => intro p h; simp [walkDir] at h
  | cons e es ih =>
    intro p h
    by_cases hd : e.isDir = true
    · by_cases ha : walkDirAdmit_v012 inclusion exclusion e.path = true
      · by_cases hk : addOk e.path = true
        · simp only [walkDir, hd, ha, hk] at h
          simp only [Bool.not_true, Bool.false_eq_true, if_false, if_true,
            List.mem_cons] at h
          rcases h with h | h
          · exact h ▸ ha
          · exact ih p h
        · simp only [walkDir, hd, ha, hk] at h
          simp at h
      · simp only [walkDir, hd, ha] at h
        simp only [Bool.not_false, if_true, Bool.not_true] at h
        exact ih p h
    · simp only [walkDir, Bool.not_eq_true] at h
      rw [Bool.not_eq_true] at hd
      rw [hd] at h
      exact ih p h

/-- When `walkDir` returns an error, the failing path was an admitted
directory whose `watcher.Add` failed. -/
theorem walkDir_err_spec (inclusion exclusion : List Char)
    (addOk : List Char → Bool) :
    ∀ entries f, (walkDir inclusion exclusion addOk entries).2 = some f →
      walkDirAdmit_v012 inclusion exclusion f = true ∧ addOk f = false := by
  intro entries
  induction entries with
  | nil => intro f h; simp [walkDir] at h
  | cons e es ih =>
    intro f h
    by_cases hd : e.isDir = true
    · by_cases ha : walkDirAdmit_v012 inclusion exclusion e.path = true
      · by_cases hk : addOk e.path = true
        · simp only [walkDir, hd, ha, hk, Bool.not_true, Bool.false_eq_true,
            if_false, if_true] at h
          exact ih f h
        · simp only [walkDir, hd, ha, hk, Bool.not_true, Bool.false_eq_true,
            if_false, if_true] at h
          simp only [Option.some.injEq] at h
          subst h
          exact ⟨ha, by simpa using hk⟩
      · simp only [walkDir, hd, ha] at h
        simp only [Bool.not_false, if_true, Bool.not_true] at h
        exact ih f h
    · simp only [walkDir] at h
      rw [Bool.not_eq_true] at hd
      rw [hd] at h
      exact ih f h

/-- Iterating the v0.1.2 `startProcess` on successful spawns produces
exactly the `restartTrace` event list. -/
theorem runSupervisor_eq_restartTrace :
    ∀ (pids : List Nat) (cur : Option Nat),
      runSupervisor (cur.map fun p => GoCmd.mk (some p)) pids =
        .ok (restartTrace cur pids) := by
  intro pids
  induction pids with
  | nil => intro cur; cases cur <;> rfl
  | cons q qs ih =>
    intro cur
    have h : runSupervisor (some ⟨some q⟩) qs = .ok (restartTrace (some q) qs) :=
      ih (some q)
    cases cur with
    | none =>
      show (do
          let rest ← runSupervisor (some ⟨some q⟩) qs
          Except.ok ([PEvent.spawn q] ++ rest)) =
        Except.ok (restartTrace none (q :: qs))
      rw [h]
      rfl
    | some p =>
      show (do
          let rest ← runSupervisor (some ⟨some q⟩) qs
          Except.ok ([PEvent.killSig p, PEvent.waitRet p, PEvent.spawn q] ++ rest)) =
        Except.ok (restartTrace (some p) (q :: qs))
      rw [h]
      rfl

/-- Before every `spawn` event in a restart trace, no earlier child is
still live: the old group's `killSig` and `waitRet` precede it. -/
theorem restartTrace_spawn_pre :
    ∀ (pids : List Nat) (cur : Option Nat) (tr₁ tr₂ : List PEvent) (q : Nat),
      restartTrace cur pids = tr₁ ++ .spawn q :: tr₂ →
        liveFrom cur.toList tr₁ = [] := by
  intro pids
  induction pids with
  | nil =>
    intro cur tr₁ tr₂ q h
    cases cur <;> simp [restartTrace] at h
  | cons r qs ih =>
    intro cur tr₁ tr₂ q h
    cases cur with
    | none =>
      simp only [restartTrace] at h
      cases tr₁ with
      | nil => rfl
      | cons e tr₁' =>
        simp only [List.cons_append, List.cons.injEq] at h
        obtain ⟨he, h⟩ := h
        subst he
        exact ih (some r) tr₁' tr₂ q h
    | some p =>
      simp only [restartTrace] at h
      cases tr₁ with
      | nil => simp at h
      | cons e₁ tr₁' =>
        simp only [List.cons_append, List.cons.injEq] at h
        cases tr₁' with
        | nil => simp at h
        | cons e₂ tr₁'' =>
          simp only [List.cons_append, List.cons.injEq] at h
          obtain ⟨he₁, he₂, h⟩ := h
          subst he₁; subst he₂
          cases tr₁'' with
          | nil =>
            simp [liveFrom, liveStep, Option.toList, List.erase_cons_head]
          | cons e₃ tr₁''' =>
            simp only [List.cons_append, List.cons.injEq] at h
            obtain ⟨he₃, h⟩ := h
            subst he₃
            have h2 := ih (some r) tr₁''' tr₂ q h
            show (liveFrom [p] (PEvent.killSig p :: PEvent.waitRet p ::
              PEvent.spawn r :: tr₁''')) = []
            simp only [liveFrom, List.foldl, liveStep, List.erase_cons_head,
              List.nil_append]
            simpa [liveFrom] using h2

/-- Every prefix of a restart trace has at most one live child. -/
theorem restartTrace_prefix_bound :
    ∀ (pids : List Nat) (cur : Option Nat) (tr₁ rest : List PEvent),
      tr₁ ++ rest = restartTrace cur pids →
        (liveFrom cur.toList tr₁).length ≤ 1 := by
  intro pids
  induction pids with
  | nil =>
    intro cur tr₁ rest h
    cases cur with
    | none =>
      simp only [restartTrace, List.append_eq_nil] at h
      rw [h.1]
      simp [liveFrom]
    | some p =>
      simp only [restartTrace, List.append_eq_nil] at h
      rw [h.1]
      simp [liveFrom]
  | cons r qs ih =>
    intro cur tr₁ rest h
    cases cur with
    | none =>
      simp only [restartTrace] at h
      cases tr₁ with
      | nil => simp [liveFrom]
      | cons e tr₁' =>
        simp only [List.cons_append, List.cons.injEq] at h
        obtain ⟨he, h⟩ := h
        subst he
        exact ih (some r) tr₁' rest h
    | some p =>
      simp only [restartTrace] at h
      cases tr₁ with
      | nil => simp [liveFrom, Option.toList]
      | cons e₁ tr₁' =>
        simp only [List.cons_append, List.cons.injEq] at h
        obtain ⟨he₁, h⟩ := h
        subst he₁
        cases tr₁' with
        | nil =>
          simp [liveFrom, List.foldl, liveStep, Option.toList]
        | cons e₂ tr₁'' =>
          simp only [List.cons_append, List.cons.injEq] at h
          obtain ⟨he₂, h⟩ := h
          subst he₂
          cases tr₁'' with
          | nil =>
            simp [liveFrom, List.foldl, liveStep, Option.toList,
              List.erase_cons_head]
          | cons e₃ tr₁''' =>
            simp only [List.cons_append, List.cons.injEq] at h
            obtain ⟨he₃, h⟩ := h
            subst he₃
            have h2 := ih (some r) tr₁''' rest h
            show (liveFrom [p] (PEvent.killSig p :: PEvent.waitRet p ::
              PEvent.spawn r :: tr₁''')).length ≤ 1
            simp only [liveFrom, List.foldl, liveStep, List.erase_cons_head,
              List.nil_append]
            simpa [liveFrom] using h2

/-- While every next event arrives strictly before the pending deadline,
re-arming never lets a timer fire: the fold keeps the fire list unchanged
and ends with only the last event's timer pending. -/
theorem debRun_chain (d : Nat) :
    ∀ (rest : List Nat) (t₀ : Nat) (fs : List Nat),
      List.Chain' (fun a b => a ≤ b ∧ b < a + d) (t₀ :: rest) →
      List.foldl (debArm d) ⟨some (t₀ + d), fs⟩ rest =
        ⟨some ((t₀ :: rest).getLast (List.cons_ne_nil t₀ rest) + d), fs⟩ := by
  intro rest
  induction rest with
  | nil => intro t₀ fs _; rfl
  | cons t₁ rest' ih =>
    intro t₀ fs h
    rw [List.chain'_cons] at h
    obtain ⟨⟨hle, hlt⟩, h'⟩ := h
    have hstep : debArm d ⟨some (t₀ + d), fs⟩ t₁ = ⟨some (t₁ + d), fs⟩ := by
      simp [debArm, Nat.not_le.mpr hlt]
    show List.foldl (debArm d) (debArm d ⟨some (t₀ + d), fs⟩ t₁) rest' = _
    rw [hstep, ih t₁ fs h']
    rfl

/-- Running the file-watch select loop from a state whose current command
was successfully started never panics, and only appends to the event
trace. -/
theorem loopRun_out_events :
    ∀ (inputs : List LoopIn) (inclusion exclusion extension : List Char)
      (addOk : List Char → Bool) (st : LoopState) (p : Nat),
      st.cmd = some ⟨some p⟩ →
      ∃ st' b rest,
        loopRun inclusion exclusion extension addOk st inputs = .out st' b ∧
          st'.events = st.events ++ rest := by
  intro inputs
  induction inputs with
  | nil =>
    intro inclusion exclusion extension addOk st p _
    exact ⟨st, false, [], rfl, by simp⟩
  | cons i is ih =>
    intro inclusion exclusion extension addOk st p hcmd
    obtain ⟨cmd, evs, wt⟩ := st
    cases i with
    | ctxDone => exact ⟨⟨cmd, evs, wt⟩, true, [], rfl, by simp⟩
    | evClosed => exact ⟨⟨cmd, evs, wt⟩, true, [], rfl, by simp⟩
    | errClosed => exact ⟨⟨cmd, evs, wt⟩, true, [], rfl, by simp⟩
    | errValue => exact ih inclusion exclusion extension addOk ⟨cmd, evs, wt⟩ p hcmd
    | debounceFire q =>
      have hc : cmd = some ⟨some p⟩ := hcmd
      subst hc
      have hred : loopRun inclusion exclusion extension addOk
          ⟨some ⟨some p⟩, evs, wt⟩ (.debounceFire q :: is) =
          loopRun inclusion exclusion extension addOk
            ⟨some ⟨some q⟩,
              evs ++ [.killSig p, .waitRet p, .spawn q], wt⟩ is := rfl
      rw [hred]
      obtain ⟨st', b, rest, hrun, hev⟩ :=
        ih inclusion exclusion extension addOk
          ⟨some ⟨some q⟩, evs ++ [.killSig p, .waitRet p, .spawn q], wt⟩ q rfl
      refine ⟨st', b, [.killSig p, .waitRet p, .spawn q] ++ rest, hrun, ?_⟩
      simpa [List.append_assoc] using hev
    | fsEvent name op stat sub =>
      rcases hh : handleEvent_v012 extension exclusion name op stat with _ | _ | _
      · have hred : loopRun inclusion exclusion extension addOk
            ⟨cmd, evs, wt⟩ (.fsEvent name op stat sub :: is) =
            loopRun inclusion exclusion extension addOk ⟨cmd, evs, wt⟩ is := by
          simp only [loopRun, hh]
        rw [hred]
        exact ih inclusion exclusion extension addOk ⟨cmd, evs, wt⟩ p hcmd
      · have hred : loopRun inclusion exclusion extension addOk
            ⟨cmd, evs, wt⟩ (.fsEvent name op stat sub :: is) =
            loopRun inclusion exclusion extension addOk
              ⟨cmd, evs, wt ++ (walkDir inclusion exclusion addOk sub).1⟩ is := by
          simp only [loopRun, hh]
        rw [hred]
        exact ih inclusion exclusion extension addOk
          ⟨cmd, evs, wt ++ (walkDir inclusion exclusion addOk sub).1⟩ p hcmd
      · have hred : loopRun inclusion exclusion extension addOk
            ⟨cmd, evs, wt⟩ (.fsEvent name op stat sub :: is) =
            loopRun inclusion exclusion extension addOk ⟨cmd, evs, wt⟩ is := by
          simp only [loopRun, hh]
        rw [hred]
        exact ih inclusion exclusion extension addOk ⟨cmd, evs, wt⟩ p hcmd

/-!
## Claim theorems
-/

/-- C1: for every restart performed by the v0.1.2 supervisor
(`startProcess` = `killProcess` then spawn), the previously running child
group is fully terminated (`killSig` to its group) and reaped (`waitRet`)
strictly before the new child is spawned — before every `spawn` event in
the trace the live set is empty — and every prefix of the trace has at
most one live supervised child. -/
theorem restart_kills_and_reaps_before_spawn
    (pids : List Nat) (tr tr₁ tr₂ rest : List PEvent) (q : Nat)
    (h : runSupervisor none pids = .ok tr) :
    (tr = tr₁ ++ PEvent.spawn q :: tr₂ → liveFrom [] tr₁ = []) ∧
      (tr₁ ++ rest = tr → (liveFrom [] tr₁).length ≤ 1) := by
  have he : runSupervisor none pids = .ok (restartTrace none pids) :=
    runSupervisor_eq_restartTrace pids none
  rw [h] at he
  have htr : tr = restartTrace none pids := by
    injection he.symm with h'
    exact h'.symm
  subst htr
  constructor
  · intro hsplit
    exact restartTrace_spawn_pre pids none tr₁ tr₂ q hsplit
  · intro hsplit
    exact restartTrace_prefix_bound pids none tr₁ rest hsplit

/-- C1 witness: a concrete two-restart run; before the second spawn the
first child is fully reaped, and the prefix bound holds. -/
theorem restart_kills_and_reaps_before_spawn_witness :
    liveFrom [] [PEvent.spawn 3, PEvent.killSig 3, PEvent.waitRet 3] = [] ∧
      (liveFrom [] [PEvent.spawn 3, PEvent.killSig 3, PEvent.waitRet 3]).length ≤ 1 := by
  have h := restart_kills_and_reaps_before_spawn [3, 4]
    [PEvent.spawn 3, PEvent.killSig 3, PEvent.waitRet 3, PEvent.spawn 4]
    [PEvent.spawn 3, PEvent.killSig 3, PEvent.waitRet 3] [] [PEvent.spawn 4] 4 rfl
  exact ⟨h.1 rfl, h.2 rfl⟩

/-- C2: a file-level event (stat succeeded, not a directory) of a
qualifying kind (create/write/rename) reaches the debounce-arm path iff
the lowercased `filepath.Ext` of its path matches the extension pattern
and the lowercased full path does not match the exclusion pattern
(v0.1.2 `runFileWatcher`). -/
theorem file_event_actionable_iff
    (extension exclusion name : List Char) (op : FsOp)
    (hop : isTriggerOp op = true) :
    handleEvent_v012 extension exclusion name op (some false) = .armDebounce ↔
      (reMatch extension (goToLower (pathExt name)) = true ∧
        reMatch exclusion (goToLower name) = false) := by
  constructor
  · intro h
    by_cases he : reMatch extension (goToLower (pathExt name)) = true
    · by_cases hx : reMatch exclusion (goToLower name) = true
      · simp [handleEvent_v012, he, hx] at h
      · exact ⟨he, by simpa using hx⟩
    · rw [Bool.not_eq_true] at he
      simp [handleEvent_v012, he] at h
  · rintro ⟨he, hx⟩
    simp [handleEvent_v012, he, hx, hop]

/-- C2 witness: `src/main.go` with a write event, extension rules
`[.go]`, exclusion rules `[.git]`, is actionable. -/
theorem file_event_actionable_iff_witness :
    handleEvent_v012 (parseRegexpsRaw [".go".toList])
        (parseRegexpsRaw [".git".toList]) "src/main.go".toList
        FsOp.write (some false) = .armDebounce :=
  (file_event_actionable_iff (parseRegexpsRaw [".go".toList])
      (parseRegexpsRaw [".git".toList]) "src/main.go".toList FsOp.write
      (by decide)).mpr ⟨by decide, by decide⟩

/-- C3: every directory registered by the v0.1.2 `walkDir` satisfies
`include ∨ ¬exclude` on the lowercased path (its admission is the stricter
`include ∧ ¬exclude`), and the v0.0.4 `walkDir` admission is exactly
`include ∨ ¬exclude`; in both revisions watched directories satisfy the
claimed disjunction. -/
theorem watched_dir_include_or_not_exclude
    (inclusion exclusion : List Char) (addOk : List Char → Bool)
    (entries : List WalkEntry) (p q : List Char) :
    (p ∈ (walkDir inclusion exclusion addOk entries).1 →
      reMatch inclusion (goToLower p) = true ∨
        reMatch exclusion (goToLower p) = false) ∧
      (walkDirAdmit_v004 inclusion exclusion q = true →
        reMatch inclusion (goToLower q) = true ∨
          reMatch exclusion (goToLower q) = false) := by
  constructor
  · intro hp
    have h := walkDir_watched_admit inclusion exclusion addOk entries p hp
    simp only [walkDirAdmit_v012, Bool.and_eq_true, Bool.not_eq_true'] at h
    exact Or.inl h.1
  · intro hq
    simp only [walkDirAdmit_v004, Bool.or_eq_true, Bool.not_eq_true'] at hq
    exact hq

/-- C3 witness: with inclusion rules `[src]` and exclusion rules `[.git]`,
the directory `/w/src` is watched by the v0.1.2 walk and admitted by the
v0.0.4 rule, and satisfies the disjunction. -/
theorem watched_dir_include_or_not_exclude_witness :
    reMatch (parseRegexpsRaw ["src".toList])
        (goToLower "/w/src".toList) = true ∨
      reMatch (parseRegexpsRaw [".git".toList])
        (goToLower "/w/src".toList) = false :=
  (watched_dir_include_or_not_exclude (parseRegexpsRaw ["src".toList])
      (parseRegexpsRaw [".git".toList]) (fun _ => true)
      [⟨"/w/src".toList, true⟩] "/w/src".toList "/w/src".toList).1
    (by decide)

/-- C4: for any `N ≥ 1` qualifying events each arriving strictly before the
previous timer's deadline (consecutive gaps strictly below the quiet
period `d`), the debouncer's restart callback runs exactly once, at the
last event's time plus `d` — only after the quiet period passes with no
further event.  At most one timer is ever pending (`debRun` keeps a single
`Option` deadline, each arm cancelling the previous timer). -/
theorem debounce_coalesces_to_one_restart
    (d : Nat) (ts : List Nat) (h₁ : ts ≠ [])
    (h₂ : List.Chain' (fun a b => a ≤ b ∧ b < a + d) ts) :
    debFires d ts = [ts.getLast h₁ + d] := by
  cases ts with
  | nil => exact absurd rfl h₁
  | cons t₀ rest =>
    show debFires d (t₀ :: rest) = _
    have hfold := debRun_chain d rest t₀ [] h₂
    have hrun : debRun d (t₀ :: rest) =
        ⟨some ((t₀ :: rest).getLast (List.cons_ne_nil t₀ rest) + d), []⟩ := by
      show List.foldl (debArm d) (debArm d ⟨none, []⟩ t₀) rest = _
      have : debArm d ⟨none, []⟩ t₀ = ⟨some (t₀ + d), []⟩ := rfl
      rw [this, hfold]
    simp only [debFires, hrun]
    rfl

/-- C4 witness (Scenario B of the spec): three writes 50 time units apart
with a 500-unit quiet period yield exactly one restart, at time 600. -/
theorem debounce_coalesces_to_one_restart_witness :
    debFires 500 [0, 50, 100] = [100 + 500] :=
  debounce_coalesces_to_one_restart 500 [0, 50, 100] (by decide)
    (by simp [List.chain'_cons])

/-- C5 (claim refuted — code bug): with child 42 running, a cancellation
makes the v0.1.2 file-watch loop return at once with no `killSig`/`waitRet`
emitted — child 42 is still live at loop exit — and the tick loop
behaves the same. -/
theorem shutdown_leaves_child_running :
    runFileWatcher (parseRegexpsRaw []) (parseRegexpsRaw [".git".toList])
        (parseRegexpsRaw [".go".toList]) (fun _ => true) [] (some 42)
        [LoopIn.ctxDone] =
      .returned ⟨some ⟨some 42⟩, [PEvent.spawn 42], []⟩ ∧
      liveFrom [] [PEvent.spawn 42] = [42] ∧
      runCommandWatcher (some 42) [TickIn.ctxDone] =
        .ok (⟨some ⟨some 42⟩, [PEvent.spawn 42]⟩, true) :=
  ⟨rfl, rfl, rfl⟩

/-- C6 counterexample: in a walk over `/r`, `/r/a`, `/r/b` (all admitted)
where `watcher.Add` fails on the non-root directory `/r/a`, the walk
aborts — `/r/b` is never registered — and the error is returned, instead
of the failure being skipped without aborting the overall attach as the
claim states. -/
theorem single_add_failure_aborts_walk :
    walkDir (parseRegexpsRaw []) (parseRegexpsRaw [".git".toList])
        (fun p => !(p == "/r/a".toList))
        [⟨"/r".toList, true⟩, ⟨"/r/a".toList, true⟩, ⟨"/r/b".toList, true⟩] =
      (["/r".toList], some "/r/a".toList) := by
  decide

/-- C6 (amended): a failure to register a directory aborts the current
walk and the error is returned to the caller; during the initial root walk
this is fatal (`log.Fatal`); during the incremental walks triggered by
new-directory events the error is only logged and the event loop
continues, with the current command untouched. -/
theorem walk_failure_semantics
    (inclusion exclusion extension : List Char) (addOk : List Char → Bool)
    (tree sub : List WalkEntry) (f name : List Char)
    (initSpawn : Option Nat) (inputs : List LoopIn)
    (st : LoopState) (op : FsOp) (is : List LoopIn) :
    ((walkDir inclusion exclusion addOk tree).2 = some f →
      walkDirAdmit_v012 inclusion exclusion f = true ∧ addOk f = false ∧
        runFileWatcher inclusion exclusion extension addOk tree initSpawn
          inputs = .fatal f) ∧
      (∃ st', loopRun inclusion exclusion extension addOk st
          (.fsEvent name op (some true) sub :: is) =
            loopRun inclusion exclusion extension addOk st' is ∧
          st'.cmd = st.cmd) := by
  constructor
  · intro herr
    obtain ⟨ha, hk⟩ := walkDir_err_spec inclusion exclusion addOk tree f herr
    refine ⟨ha, hk, ?_⟩
    simp only [runFileWatcher, herr]
  · exact ⟨⟨st.cmd, st.events,
      st.watched ++ (walkDir inclusion exclusion addOk sub).1⟩, rfl, rfl⟩

/-- C6 witness: the concrete aborted walk of the counterexample is fatal
when it is the initial walk, and its failing path was admitted with a
failing `Add`. -/
theorem walk_failure_semantics_witness :
    walkDirAdmit_v012 (parseRegexpsRaw []) (parseRegexpsRaw [".git".toList])
        "/r/a".toList = true ∧
      (fun p => !(p == "/r/a".toList)) "/r/a".toList = false ∧
      runFileWatcher (parseRegexpsRaw []) (parseRegexpsRaw [".git".toList])
        (parseRegexpsRaw [".go".toList]) (fun p => !(p == "/r/a".toList))
        [⟨"/r".toList, true⟩, ⟨"/r/a".toList, true⟩, ⟨"/r/b".toList, true⟩]
        (some 9) [] = .fatal "/r/a".toList :=
  (walk_failure_semantics (parseRegexpsRaw []) (parseRegexpsRaw [".git".toList])
      (parseRegexpsRaw [".go".toList]) (fun p => !(p == "/r/a".toList))
      [⟨"/r".toList, true⟩, ⟨"/r/a".toList, true⟩, ⟨"/r/b".toList, true⟩]
      [] "/r/a".toList [] (some 9) [] ⟨none, [], []⟩ FsOp.create []).1
    (by decide)

/-- C7 counterexample: with env-file entry `K=fromfile` and inherited
environment `K=inherited`, the child sees `inherited` — `readEnvs` puts
the env-file pairs first and `os.Environ()` last, and Go `exec` lets the
last duplicate win — refuting "env-file values take precedence". -/
theorem envfile_does_not_take_precedence :
    effectiveEnv (readEnvs [("K", "fromfile")] [("K", "inherited")]) "K" =
        some "inherited" ∧
      effectiveEnv (readEnvs [("K", "fromfile")] [("K", "inherited")]) "K" ≠
        some "fromfile" := by
  constructor
  · rfl
  · decide

/-- C7 (amended): the environment snapshot is recomputed per start from
the env-file contents followed by the inherited environment; on key
collision the inherited value takes precedence, because the env-file
entries are placed first and the last entry per key wins. -/
theorem inherited_env_takes_precedence
    (fileEnv procEnv : List (String × String)) (k : String)
    (h : (procEnv.filter fun e => e.1 == k) ≠ []) :
    effectiveEnv (readEnvs fileEnv procEnv) k = effectiveEnv procEnv k := by
  simp only [effectiveEnv, readEnvs, List.filter_append]
  rw [List.getLast?_append_of_ne_nil _ h]

/-- C7 witness: the counterexample pair, resolved through the amended
theorem. -/
theorem inherited_env_takes_precedence_witness :
    effectiveEnv (readEnvs [("K", "fromfile")] [("K", "inherited")]) "K" =
      effectiveEnv [("K", "inherited")] "K" :=
  inherited_env_takes_precedence [("K", "fromfile")] [("K", "inherited")] "K"
    (by decide)

/-- C8 counterexample: an empty inclusion rule slice compiles (via
`joinPipe`) to the empty pattern, and the empty pattern matches
`/home/user/src` — the inclusion matcher matches everything, not
nothing. -/
theorem empty_inclusion_matches_everything :
    reMatch (parseRegexpsRaw []) (goToLower "/home/user/src".toList) = true := by
  decide

/-- C8 (amended): an empty inclusion rule set compiles to the empty
pattern, which matches every string; consequently the absence of inclusion
rules never blocks a path that passes the exclusion check — the v0.1.2
directory admission degenerates to exactly `¬exclude`. -/
theorem empty_inclusion_blocks_nothing (s excl p : List Char) :
    reMatch (parseRegexpsRaw []) s = true ∧
      walkDirAdmit_v012 (parseRegexpsRaw []) excl p =
        !reMatch excl (goToLower p) := by
  refine ⟨reMatch_nil s, ?_⟩
  show walkDirAdmit_v012 [] excl p = _
  simp [walkDirAdmit_v012, reMatch_nil]

/-- C9 (claim refuted — code bug): when `cmd.Start()` fails, `startProcess`
does not merely log and continue: the unconditional
`log.Info().Msgf("started (%d)", cmd.Process.Pid)` dereferences the `nil`
`cmd.Process` and the supervisor panics — with or without a previous
child. -/
theorem spawn_failure_panics :
    startProcess none none = .error .nilDeref ∧
      startProcess (some ⟨some 7⟩) none = .error .nilDeref :=
  ⟨rfl, rfl⟩

/-- C10: in file-watch mode the supervised command is started exactly once
immediately when supervision begins: whenever the initial walk succeeds,
the first emitted process event is the initial `spawn` — before any loop
input is consumed — and with no inputs at all the whole trace is exactly
that one spawn. -/
theorem first_run_before_any_event
    (inclusion exclusion extension : List Char) (addOk : List Char → Bool)
    (tree : List WalkEntry) (p₀ : Nat) (inputs : List LoopIn)
    (hw : (walkDir inclusion exclusion addOk tree).2 = none) :
    (∃ rest, (runFileWatcher inclusion exclusion extension addOk tree
        (some p₀) inputs).eventsOf = some (PEvent.spawn p₀ :: rest)) ∧
      (runFileWatcher inclusion exclusion extension addOk tree
        (some p₀) []).eventsOf = some [PEvent.spawn p₀] := by
  constructor
  · obtain ⟨st', b, rest, hrun, hev⟩ :=
      loopRun_out_events inputs inclusion exclusion extension addOk
        ⟨some ⟨some p₀⟩, [PEvent.spawn p₀],
          (walkDir inclusion exclusion addOk tree).1⟩ p₀ rfl
    refine ⟨rest, ?_⟩
    simp only [runFileWatcher, hw]
    show (match loopRun inclusion exclusion extension addOk
        ⟨some ⟨some p₀⟩, [PEvent.spawn p₀],
          (walkDir inclusion exclusion addOk tree).1⟩ inputs with
      | .panicked p => RunOutcome.panicked p
      | .out st returned =>
        if returned then RunOutcome.returned st else RunOutcome.looping st).eventsOf = _
    rw [hrun]
    cases b <;> simp [RunOutcome.eventsOf, hev]
  · simp only [runFileWatcher, hw]
    rfl

/-- C10 witness: a concrete run (empty tree, one later cancellation input)
whose first and only pre-loop process event is the initial spawn. -/
theorem first_run_before_any_event_witness :
    (∃ rest, (runFileWatcher (parseRegexpsRaw []) (parseRegexpsRaw [".git".toList])
        (parseRegexpsRaw [".go".toList]) (fun _ => true) [] (some 5)
        [LoopIn.ctxDone]).eventsOf = some (PEvent.spawn 5 :: rest)) ∧
      (runFileWatcher (parseRegexpsRaw []) (parseRegexpsRaw [".git".toList])
        (parseRegexpsRaw [".go".toList]) (fun _ => true) [] (some 5)
        []).eventsOf = some [PEvent.spawn 5] :=
  first_run_before_any_event (parseRegexpsRaw []) (parseRegexpsRaw [".git".toList])
    (parseRegexpsRaw [".go".toList]) (fun _ => true) [] 5 [LoopIn.ctxDone] rfl

end GoWatcher
